import Mathlib

/-!
Verification of the skylock live-ping rendering pipeline
(`src/map/frontend/src/components/MapView/Mapview.tsx`).

The file embeds, as executable Lean definitions:
* a model `JSVal` of JavaScript values as produced by `JSON.parse`
  (objects carry their fields as an ordered association list with
  unique keys, which is what `JSON.parse` yields);
* the pure function `parseAnswers` (Mapview.tsx lines 19-45);
* the bounded history-store append performed inside `ws.onmessage`
  (lines 79-84: push, then `splice(0, length - MAX_PINS)` when over
  capacity);
* the message-ingestion step of `ws.onmessage` (lines 74-86): a frame is
  modelled after `JSON.parse` — `none` when parsing threw (swallowed by
  the `catch {}` block), `some v` when it produced the value `v`;
* a state machine for the mounted `MapView` component with one `Pin`
  (marker + popup pair) rendered per element of the `pings` state
  (lines 95-107 and 134-200): arrival of a ping re-renders, mounting a
  `Pin` for the appended element and unmounting the `Pin`s of evicted
  elements (their effect cleanup removes marker and popup); unmounting
  the host unmounts every `Pin`.
-/

/-- JavaScript WhiteSpace and LineTerminator code points, the
characters removed by `String.prototype.trim`. -/
def jsWhiteCodes : List Nat :=
  [9, 10, 11, 12, 13, 32, 160, 0x1680, 0x2000, 0x2001, 0x2002, 0x2003,
   0x2004, 0x2005, 0x2006, 0x2007, 0x2008, 0x2009, 0x200A, 0x2028,
   0x2029, 0x202F, 0x205F, 0x3000, 0xFEFF]

/-- Whether `String.prototype.trim` removes the character. -/
def jsIsWhite (c : Char) : Bool :=
  c.toNat ∈ jsWhiteCodes

/-- JavaScript `String.prototype.trim`: remove leading and trailing
whitespace. (Implemented over the character list so that it evaluates
inside the kernel; `String.trim` of the core library does not.) -/
def jsTrim (s : String) : String :=
  String.mk (((s.data.dropWhile jsIsWhite).reverse.dropWhile jsIsWhite).reverse)

/-- JavaScript `String.prototype.toLowerCase`, on the ASCII range (the
only range exercised by the question keys the component reads). -/
def jsToLower (s : String) : String :=
  String.mk (s.data.map Char.toLower)

/-- String keys and literals used by the source, named so they can be
passed as ordinary arguments. -/
def kQ : String := "q"

def kA : String := "a"

def kType : String := "type"

def sHello : String := "hello"

def kInDanger : String := "in_danger"

def kInjured : String := "injured"

def kAlone : String := "alone"

def kThreat : String := "threat_active"

def kStatus : String := "status"

def sYes : String := "yes"

def sUnknown : String := "unknown"

def cAlert : String := "#e11d48"

def cNormal : String := "#22c55e"

/-- A JavaScript value as produced by `JSON.parse`, extended with
`undefined` (the result of reading an absent property). Numbers are
modelled as integers: no claim depends on fractional values, and the
only numeric operation the embedded code performs is `String(...)`
coercion. -/
inductive JSVal where
  | null
  | undefined
  | bool (b : Bool)
  | num (n : Int)
  | str (s : String)
  | arr (xs : List JSVal)
  | obj (fields : List (String × JSVal))

/- JavaScript `String(v)` coercion (`jsString`) and
`Array.prototype.toString`, i.e. `join(",")` (`jsJoin`), in which
`null` and `undefined` elements render as the empty string. -/
mutual

/-- JavaScript `String(v)` coercion. -/
def jsString : JSVal → String
  | .null => "null"
  | .undefined => "undefined"
  | .bool true => "true"
  | .bool false => "false"
  | .num n => toString n
  | .str s => s
  | .arr xs => jsJoin xs
  | .obj _ => "[object Object]"

/-- `Array.prototype.join` with separator `,`. -/
def jsJoin : List JSVal → String
  | [] => ""
  | [JSVal.null] => ""
  | [JSVal.undefined] => ""
  | [x] => jsString x
  | JSVal.null :: xs => "," ++ jsJoin xs
  | JSVal.undefined :: xs => "," ++ jsJoin xs
  | x :: xs => jsString x ++ "," ++ jsJoin xs

end

/-- The `??` (nullish-coalescing) operator. -/
def jsCoalesce (v d : JSVal) : JSVal :=
  match v with
  | .null => d
  | .undefined => d
  | _ => v

/-- Property lookup in an object's field list; absent keys read as
`undefined`. -/
def findField : List (String × JSVal) → String → JSVal
  | [], _ => .undefined
  | (k', v) :: rest, k => if k' = k then v else findField rest k

/-- Optional-chained property read `v?.k`: `undefined` on `null`,
`undefined` and every non-object (the embedded code only reads plain
data keys, never built-ins such as `length`). -/
def getField (v : JSVal) (k : String) : JSVal :=
  match v with
  | .obj fs => findField fs k
  | _ => .undefined

/-- `String(it?.k ?? "").trim().toLowerCase()` — the normalisation the
source applies to each question and answer (Mapview.tsx lines 24-29). -/
def normField (it : JSVal) (k : String) : String :=
  jsToLower (jsTrim (jsString (jsCoalesce (getField it k) (JSVal.str ("")))))

/-- `rec[q] = a` on a JavaScript object: update the value in place when
the key is present, otherwise append the binding. -/
def upsert : List (String × String) → String → String → List (String × String)
  | [], k, v => [(k, v)]
  | (k', v') :: rest, k, v =>
      if k' = k then (k', v) :: rest else (k', v') :: upsert rest k v

/-- `rec[k]` on the object built by `upsert` from the empty object. -/
def lookupRec : List (String × String) → String → Option String
  | [], _ => none
  | (k', v) :: rest, k => if k' = k then some v else lookupRec rest k

/-- The loop of Mapview.tsx lines 23-31: normalise each element's `q`
and `a` and store `rec[q] = a` for non-empty `q` (JavaScript `if (q)`:
the empty string is falsy). -/
def buildLookup (list : List JSVal) : List (String × String) :=
  list.foldl
    (fun m it =>
      let q := normField it kQ
      let a := normField it kA
      if q = "" then m else upsert m q a)
    []

/-- `Array.isArray(raw) ? raw : []` (Mapview.tsx line 21). -/
def asList (raw : JSVal) : List JSVal :=
  match raw with
  | .arr xs => xs
  | _ => []

/-- The lookup object `rec` computed by `parseAnswers` for input `raw`. -/
def answerMap (raw : JSVal) : List (String × String) :=
  buildLookup (asList raw)

/-- `parseAnswers` (Mapview.tsx lines 19-45): returns the danger flag
(`rec["in_danger"] === "yes"`) and the display rows, four rows in the
danger branch and two otherwise, each value being the looked-up answer
or the literal placeholder when absent (`?? "unknown"`). -/
def parseAnswers (raw : JSVal) : Bool × List (String × String) :=
  let m := answerMap raw
  if lookupRec m kInDanger = some sYes then
    (true,
      [(kInDanger, (lookupRec m kInDanger).getD sUnknown),
       (kInjured, (lookupRec m kInjured).getD sUnknown),
       (kAlone, (lookupRec m kAlone).getD sUnknown),
       (kThreat, (lookupRec m kThreat).getD sUnknown)])
  else
    (false,
      [(kInDanger, (lookupRec m kInDanger).getD sUnknown),
       (kStatus, (lookupRec m kStatus).getD sUnknown)])

/-- `MAX_PINS` (Mapview.tsx line 16). -/
def MAX_PINS : Nat := 500

/-- The store update of Mapview.tsx lines 80-83: `next = [...prev, p]`,
then `next.splice(0, next.length - MAX_PINS)` when `next.length >
MAX_PINS` — i.e. drop the excess from the front. -/
def appendPing (prev : List α) (p : α) : List α :=
  let next := prev ++ [p]
  if MAX_PINS < next.length then next.drop (next.length - MAX_PINS) else next

/-- The entries removed from the front by the `splice` call of the same
update (empty when no eviction occurs). -/
def appendEvicted (prev : List α) (p : α) : List α :=
  let next := prev ++ [p]
  if MAX_PINS < next.length then next.take (next.length - MAX_PINS) else []

/-- The store contents after a sequence of appends starting from the
empty store. -/
def ingest (ps : List α) : List α :=
  ps.foldl appendPing []

/-- Store contents together with the concatenated eviction trace after
a sequence of appends starting from the empty store. -/
def ingestAcc (ps : List α) : List α × List α :=
  ps.foldl (fun st p => (appendPing st.1 p, st.2 ++ appendEvicted st.1 p)) ([], [])

/-- `data?.type === "hello"` (Mapview.tsx line 77): strict equality of
the optionally-chained property read against the string literal. -/
def isHello (d : JSVal) : Bool :=
  match getField d kType with
  | .str s => s = sHello
  | _ => false

/-- One firing of `ws.onmessage` (Mapview.tsx lines 74-86), acting on
the `pings` state. The delivered frame is modelled after `JSON.parse`:
`none` when parsing threw (the exception is swallowed by the
`catch {}` block, leaving the state untouched), `some d` when it
produced the value `d`. A `hello` frame returns early; any other
decoded value is appended as-is (`data as Ping` is a cast, not a
validation). -/
def onMessage (store : List JSVal) (m : Option JSVal) : List JSVal :=
  match m with
  | none => store
  | some d => if isHello d then store else appendPing store d

/-- The `pings` state after a sequence of delivered frames, starting
from the initial empty state. -/
def runMsgs (ms : List (Option JSVal)) : List JSVal :=
  ms.foldl onMessage []

/-- A decoded frame of the declared wire shape
`{ deviceId, ts, lat, lon, mode, pdop, answers }` with `mode` either
`"SOS"` or `"OK"` (spec section 6; the TS type `Ping`,
Mapview.tsx lines 6-14). -/
def WellFormedPing (d : JSVal) : Prop :=
  ∃ dev ts la lo mo pd ans,
    (mo = ("SOS") ∨ mo = ("OK")) ∧
    d = JSVal.obj
      [(("deviceId"), JSVal.str dev), (("ts"), JSVal.str ts),
       (("lat"), JSVal.num la), (("lon"), JSVal.num lo),
       (("mode"), JSVal.str mo), (("pdop"), JSVal.num pd),
       (("answers"), ans)]

/-- The TS type `Ping` (Mapview.tsx lines 6-14). Numeric fields are
modelled as integers; no claim depends on fractional values. -/
structure PingT where
  deviceId : String
  ts : String
  lat : Int
  lon : Int
  mode : String
  pdop : Int
  answers : JSVal

/-- One live Marker Record: the marker handle together with its popup
handle, as owned by one mounted `Pin` component (Mapview.tsx lines
134-200). `key` is the React list key `` `${p.deviceId}-${p.ts}` ``
(line 101); `idx` is the ghost store-insertion index (the arrival
number of the ping), which distinguishes records whose visual key
collides; `inDanger`, `color` and `view` are computed from the ping's
answers on creation (lines 141-142) and never mutated afterwards. -/
structure MarkerRec where
  key : String
  ping : PingT
  idx : Nat
  inDanger : Bool
  color : String
  view : List (String × String)

/-- Marker Record creation for the `Pin` rendered for ping `p` at
arrival index `i` (Mapview.tsx lines 138-189). -/
def mkMarker (p : PingT) (i : Nat) : MarkerRec :=
  let pa := parseAnswers p.answers
  { key := p.deviceId ++ ("-") ++ p.ts
    ping := p
    idx := i
    inDanger := pa.1
    color := if pa.1 then cAlert else cNormal
    view := pa.2 }

/-- The mounted `MapView` component: `store` is the `pings` state,
each entry tagged with its ghost arrival index; `markers` is the set of
live Marker Records, one per rendered `Pin`; `created` and `destroyed`
count `Pin` effect set-ups and clean-ups (marker+popup pairs built and
released). -/
structure Sys where
  mounted : Bool
  nextIdx : Nat
  store : List (PingT × Nat)
  markers : List MarkerRec
  created : Nat
  destroyed : Nat

/-- The state right after mount: empty history, no markers. -/
def initSys : Sys :=
  { mounted := true, nextIdx := 0, store := [], markers := [],
    created := 0, destroyed := 0 }

/-- An externally-triggered event on the mounted component: delivery of
a well-formed ping over the open socket, or unmount of the host. -/
inductive MapEvent where
  | arrive (p : PingT)
  | unmount

/-- One event step. A ping arrival appends to the history (with FIFO
eviction, lines 79-84) and re-renders: one new `Pin` mounts for the
appended entry, the `Pin` of every evicted entry unmounts and its
cleanup (lines 191-196) releases its popup and marker, and the
surviving `Pin`s are reused (they are keyed and memoised). Unmount
tears down every `Pin`, releasing every marker and popup, and the
component state is discarded; the closed socket delivers no further
pings (lines 62-65 and 88-92). -/
def mapStep (s : Sys) : MapEvent → Sys
  | .arrive p =>
      if s.mounted then
        let store' := appendPing s.store (p, s.nextIdx)
        { mounted := true
          nextIdx := s.nextIdx + 1
          store := store'
          markers := store'.map (fun q => mkMarker q.1 q.2)
          created := s.created + 1
          destroyed := s.destroyed + (s.store.length + 1 - store'.length) }
      else s
  | .unmount =>
      { mounted := false, nextIdx := s.nextIdx, store := [], markers := [],
        created := s.created, destroyed := s.destroyed + s.markers.length }

/-- The component state after a sequence of events, starting at mount. -/
def runMap (es : List MapEvent) : Sys :=
  es.foldl mapStep initSys

/-- The reconciliation invariant: markers are exactly the rendered
views of the current store entries, every set-up marker+popup pair not
yet torn down is live, and the ghost arrival indices in the store are
strictly increasing and below the next index. -/
def SysInv (s : Sys) : Prop :=
  s.markers = s.store.map (fun q => mkMarker q.1 q.2) ∧
  s.created = s.destroyed + s.store.length ∧
  List.Pairwise (fun a b => a < b) (s.store.map Prod.snd) ∧
  ∀ i ∈ s.store.map Prod.snd, i < s.nextIdx

/-- The looked-up answer for key `k` under last-occurrence semantics:
the normalised answer of the last list element whose normalised
question equals `k`. -/
def lastAnswer (xs : List JSVal) (k : String) : Option String :=
  (xs.filterMap
    (fun it => if normField it kQ = k then some (normField it kA) else none)).getLast?

theorem appendPing_ite (l : List α) (p : α) :
    appendPing l p =
      if MAX_PINS < (l ++ [p]).length then
        (l ++ [p]).drop ((l ++ [p]).length - MAX_PINS)
      else l ++ [p] := rfl

theorem appendEvicted_ite (l : List α) (p : α) :
    appendEvicted l p =
      if MAX_PINS < (l ++ [p]).length then
        (l ++ [p]).take ((l ++ [p]).length - MAX_PINS)
      else [] := rfl

theorem appendPing_eq_drop (l : List α) (p : α) :
    appendPing l p = (l ++ [p]).drop (l.length + 1 - MAX_PINS) := by
  rw [appendPing_ite]
  have hl : (l ++ [p]).length = l.length + 1 := by simp
  rw [hl]
  split
  · rfl
  · next h =>
      have h0 : l.length + 1 - MAX_PINS = 0 := by omega
      rw [h0, List.drop_zero]

theorem appendPing_length (l : List α) (p : α) :
    (appendPing l p).length = min (l.length + 1) MAX_PINS := by
  rw [appendPing_eq_drop, List.length_drop]
  have hl : (l ++ [p]).length = l.length + 1 := by simp
  rw [hl]
  omega

theorem appendEvicted_append (l : List α) (p : α) :
    appendEvicted l p ++ appendPing l p = l ++ [p] := by
  rw [appendPing_ite, appendEvicted_ite]
  by_cases h : MAX_PINS < (l ++ [p]).length
  · rw [if_pos h, if_pos h, List.take_append_drop]
  · rw [if_neg h, if_neg h, List.nil_append]

theorem ingest_eq_drop (ps : List α) :
    ingest ps = ps.drop (ps.length - MAX_PINS) := by
  induction ps using List.reverseRecOn with
  | nil => simp [ingest]
  | append_singleton xs x ih =>
      have hM : 0 < MAX_PINS := by decide
      have hstep : ingest (xs ++ [x]) = appendPing (ingest xs) x := by
        simp [ingest, List.foldl_append]
      rw [hstep, ih, appendPing_eq_drop, List.length_drop]
      have hl2 : (xs ++ [x]).length = xs.length + 1 := by simp
      rw [hl2]
      by_cases h : xs.length < MAX_PINS
      · have hk : xs.length - MAX_PINS = 0 := by omega
        have h2 : xs.length - (xs.length - MAX_PINS) + 1 - MAX_PINS = 0 := by
          omega
        have h3 : xs.length + 1 - MAX_PINS = 0 := by omega
        rw [h2, h3, hk]
        simp
      · have h2 : xs.length - (xs.length - MAX_PINS) + 1 - MAX_PINS = 1 := by
          omega
        have h3 : xs.length + 1 - MAX_PINS = (xs.length - MAX_PINS) + 1 := by
          omega
        rw [h2, h3]
        rw [List.drop_append_of_le_length
          (by rw [List.length_drop]; omega)]
        rw [List.drop_append_of_le_length (by omega)]
        rw [List.drop_drop]

theorem ingest_length (ps : List α) :
    (ingest ps).length = min ps.length MAX_PINS := by
  rw [ingest_eq_drop, List.length_drop]
  omega

theorem ingestAcc_fst (ps : List α) : (ingestAcc ps).1 = ingest ps := by
  induction ps using List.reverseRecOn with
  | nil => rfl
  | append_singleton xs x ih =>
      simp [ingestAcc, ingest, List.foldl_append] at *
      rw [ih]

theorem ingestAcc_conserve (ps : List α) :
    (ingestAcc ps).2 ++ (ingestAcc ps).1 = ps := by
  induction ps using List.reverseRecOn with
  | nil => rfl
  | append_singleton xs x ih =>
      simp only [ingestAcc, List.foldl_append, List.foldl_cons,
        List.foldl_nil] at *
      rw [List.append_assoc, appendEvicted_append]
      rw [← List.append_assoc, ih]

theorem ingestAcc_snd (ps : List α) :
    (ingestAcc ps).2 = ps.take (ps.length - MAX_PINS) := by
  have h := ingestAcc_conserve ps
  rw [ingestAcc_fst, ingest_eq_drop] at h
  have h2 : ps.take (ps.length - MAX_PINS) ++ ps.drop (ps.length - MAX_PINS)
      = ps := List.take_append_drop _ _
  have := h.trans h2.symm
  exact List.append_cancel_right this

theorem sysInv_init : SysInv initSys := by
  refine ⟨rfl, rfl, ?_, ?_⟩
  · simp [initSys]
  · simp [initSys]

theorem sysInv_step (s : Sys) (e : MapEvent) (h : SysInv s) :
    SysInv (mapStep s e) := by
  obtain ⟨hm, hc, hp, hb⟩ := h
  have hml : s.markers.length = s.store.length := by
    rw [hm]; simp
  cases e with
  | unmount =>
      refine ⟨rfl, ?_, ?_, ?_⟩
      · simp only [mapStep, List.length_nil]
        omega
      · simp only [mapStep, List.map_nil]
        exact List.Pairwise.nil
      · simp only [mapStep, List.map_nil]
        intro i hi
        exact absurd hi (List.not_mem_nil i)
  | arrive p =>
      by_cases hmt : s.mounted
      · have hstep : mapStep s (MapEvent.arrive p) =
            { mounted := true
              nextIdx := s.nextIdx + 1
              store := appendPing s.store (p, s.nextIdx)
              markers := (appendPing s.store (p, s.nextIdx)).map
                (fun q => mkMarker q.1 q.2)
              created := s.created + 1
              destroyed := s.destroyed +
                (s.store.length + 1 -
                  (appendPing s.store (p, s.nextIdx)).length) } := by
          simp only [mapStep, hmt, if_true]
        rw [hstep]
        refine ⟨rfl, ?_, ?_, ?_⟩
        · have hlen := appendPing_length s.store (p, s.nextIdx)
          simp only []
          omega
        · simp only []
          rw [appendPing_eq_drop, List.map_drop]
          refine List.Pairwise.sublist (List.drop_sublist _ _) ?_
          rw [List.map_append, List.pairwise_append]
          refine ⟨hp, by simp, ?_⟩
          intro a ha b hb'
          simp at hb'
          subst hb'
          exact hb a ha
        · simp only []
          intro i hi
          rw [appendPing_eq_drop, List.map_drop] at hi
          have hi' : i ∈ ((s.store ++ [(p, s.nextIdx)]).map Prod.snd) :=
            List.drop_subset _ _ hi
          rw [List.map_append] at hi'
          rcases List.mem_append.mp hi' with h1 | h2
          · exact Nat.lt_succ_of_lt (hb i h1)
          · simp at h2
            omega
      · have hstep : mapStep s (MapEvent.arrive p) = s := by
          simp [mapStep, hmt]
        rw [hstep]
        exact ⟨hm, hc, hp, hb⟩

theorem runMap_inv (es : List MapEvent) : SysInv (runMap es) := by
  suffices h : ∀ s, SysInv s → SysInv (es.foldl mapStep s) from
    h initSys sysInv_init
  induction es with
  | nil => intro s hs; exact hs
  | cons e es ih => intro s hs; exact ih _ (sysInv_step s e hs)

theorem runMap_markers_length (es : List MapEvent) :
    (runMap es).markers.length = (runMap es).store.length := by
  rw [(runMap_inv es).1]; simp

theorem wellFormed_not_hello (d : JSVal) (h : WellFormedPing d) :
    isHello d = false := by
  obtain ⟨dev, ts, la, lo, mo, pd, ans, hmo, rfl⟩ := h
  rfl

theorem wf_append_len (store : List JSVal) (d : JSVal)
    (hw : WellFormedPing d) (hl : store.length < MAX_PINS) :
    (onMessage store (some d)).length = store.length + 1 := by
  simp only [onMessage, wellFormed_not_hello d hw, Bool.false_eq_true,
    if_false]
  rw [appendPing_length]
  omega

theorem lookupRec_upsert_self (m : List (String × String)) (k v : String) :
    lookupRec (upsert m k v) k = some v := by
  induction m with
  | nil => simp [upsert, lookupRec]
  | cons hd tl ih =>
      obtain ⟨k', v'⟩ := hd
      by_cases h : k' = k
      · simp [upsert, h, lookupRec]
      · simp [upsert, h, lookupRec, ih]

theorem lookupRec_upsert_ne (m : List (String × String)) (q a k : String)
    (h : q ≠ k) :
    lookupRec (upsert m q a) k = lookupRec m k := by
  induction m with
  | nil => simp [upsert, lookupRec, h]
  | cons hd tl ih =>
      obtain ⟨k', v'⟩ := hd
      by_cases h2 : k' = q
      · subst h2
        simp [upsert, lookupRec, h]
      · by_cases h3 : k' = k
        · subst h3
          simp [upsert, h2, lookupRec]
        · simp [upsert, h2, lookupRec, h3, ih]

theorem buildLookup_last (xs : List JSVal) (k : String) (hk : k ≠ ("")) :
    lookupRec (buildLookup xs) k = lastAnswer xs k := by
  induction xs using List.reverseRecOn with
  | nil => rfl
  | append_singleton xs x ih =>
      have hstep : buildLookup (xs ++ [x]) =
          (if normField x kQ = "" then buildLookup xs
           else upsert (buildLookup xs) (normField x kQ) (normField x kA)) := by
        simp [buildLookup, List.foldl_append]
      have hlast : lastAnswer (xs ++ [x]) k =
          (if normField x kQ = k then some (normField x kA)
           else lastAnswer xs k) := by
        unfold lastAnswer
        rw [List.filterMap_append]
        by_cases hq : normField x kQ = k
        · simp [List.filterMap_cons, hq, List.getLast?_concat]
        · simp [List.filterMap_cons, hq]
      rw [hstep, hlast]
      by_cases hq : normField x kQ = k
      · have hq0 : ¬ (normField x kQ = "") := by
          rw [hq]; exact hk
        rw [if_neg hq0, if_pos hq, hq]
        exact lookupRec_upsert_self _ _ _
      · by_cases hq0 : normField x kQ = ""
        · rw [if_pos hq0, if_neg hq]
          exact ih
        · rw [if_neg hq0, if_neg hq]
          rw [lookupRec_upsert_ne _ _ _ _ hq]
          exact ih

/-- The spec's worked example for the danger branch:
`[{q:"IN_DANGER", a:"Yes"}, {q:"injured", a:"no"}]`. -/
def exampleRaw : JSVal :=
  JSVal.arr
    [JSVal.obj [(kQ, JSVal.str ("IN_DANGER")), (kA, JSVal.str ("Yes"))],
     JSVal.obj [(kQ, JSVal.str ("injured")), (kA, JSVal.str ("no"))]]

/-- An answers list in which the key `in_danger` occurs twice with
different values. -/
def dupAnswers : List JSVal :=
  [JSVal.obj [(kQ, JSVal.str ("in_danger")), (kA, JSVal.str ("no"))],
   JSVal.obj [(kQ, JSVal.str ("in_danger")), (kA, JSVal.str ("yes"))]]

/-- A concrete well-formed wire ping. -/
def wirePing : JSVal :=
  JSVal.obj
    [(("deviceId"), JSVal.str ("device-1")),
     (("ts"), JSVal.str ("2024-01-01T00:00:00Z")),
     (("lat"), JSVal.num 43), (("lon"), JSVal.num (-79)),
     (("mode"), JSVal.str ("OK")), (("pdop"), JSVal.num 2),
     (("answers"), JSVal.arr [])]

theorem wirePing_wf : WellFormedPing wirePing :=
  ⟨("device-1"), ("2024-01-01T00:00:00Z"), 43, -79, ("OK"), 2,
    JSVal.arr [], Or.inr rfl, rfl⟩

/-- The handshake control message `{"type":"hello"}`. -/
def helloMsg : JSVal := JSVal.obj [(kType, JSVal.str sHello)]

/-- A JSON value that is neither the hello control message nor of the
declared wire-ping shape. -/
def badShape : JSVal := JSVal.obj [(("foo"), JSVal.num 1)]

/-- C2: for every sequence of appends to an initially empty History
Store, the length equals min(number of appends, 500) and never exceeds
the capacity 500; the retained contents are exactly the most recently
appended pings in arrival order (the suffix of the input) and the
evicted entries are exactly the oldest prefix, in insertion order; for
any 501 appends, no eviction happens through the first 500 appends, the
501st append evicts exactly the first ping, and the store then starts
at the 2nd appended ping. -/
theorem C2_history_capacity (ps : List α) :
    (ingest ps).length = min ps.length MAX_PINS ∧
    (ingest ps).length ≤ MAX_PINS ∧
    ingest ps = ps.drop (ps.length - MAX_PINS) ∧
    (ingestAcc ps).2 = ps.take (ps.length - MAX_PINS) ∧
    (ps.length = 501 →
      ingest ps = ps.drop 1 ∧ (ingestAcc ps).2 = ps.take 1 ∧
      ∀ k, k ≤ 500 →
        ingest (ps.take k) = ps.take k ∧ (ingestAcc (ps.take k)).2 = []) := by
  have hM : MAX_PINS = 500 := rfl
  refine ⟨ingest_length ps, ?_, ingest_eq_drop ps, ingestAcc_snd ps, ?_⟩
  · rw [ingest_length]
    omega
  · intro h501
    have e1 : ps.length - MAX_PINS = 1 := by omega
    refine ⟨?_, ?_, ?_⟩
    · rw [ingest_eq_drop, e1]
    · rw [ingestAcc_snd, e1]
    · intro k hk
      have hlen : (ps.take k).length = k := by
        rw [List.length_take]; omega
      have e2 : (ps.take k).length - MAX_PINS = 0 := by omega
      constructor
      · rw [ingest_eq_drop, e2, List.drop_zero]
      · rw [ingestAcc_snd, e2, List.take_zero]

theorem C2_history_capacity_witness :
    ingest (List.range 501) = (List.range 501).drop 1 :=
  ((C2_history_capacity (List.range 501)).2.2.2.2 (by simp)).1

/-- C1: after every event sequence — every append, with or without
eviction, including eviction cycles past 500 total pings — the live
Marker Records are in bijection with the History Store's contents:
equal count (no leaks, no orphans: every set-up marker+popup pair not
yet torn down is live), same pings in store order, and all records
pairwise distinct with pairwise distinct insertion indices — so two
live pings sharing the (deviceId, ts) visual key still yield two
independent records, distinguished by store-insertion order, never
conflated and never dropped. -/
theorem C1_marker_store_sync (es : List MapEvent) :
    (runMap es).markers.length = (runMap es).store.length ∧
    (runMap es).created = (runMap es).destroyed + (runMap es).markers.length ∧
    (runMap es).markers.map MarkerRec.ping = (runMap es).store.map Prod.fst ∧
    ((runMap es).markers.map MarkerRec.idx).Nodup ∧
    (runMap es).markers.Nodup := by
  obtain ⟨hm, hc, hp, hb⟩ := runMap_inv es
  have hidx : (runMap es).markers.map MarkerRec.idx
      = (runMap es).store.map Prod.snd := by
    rw [hm, List.map_map]
    rfl
  have hnodidx : ((runMap es).markers.map MarkerRec.idx).Nodup := by
    rw [hidx]
    exact hp.imp fun h => Nat.ne_of_lt h
  refine ⟨runMap_markers_length es, ?_, ?_, hnodidx, ?_⟩
  · rw [runMap_markers_length]
    omega
  · rw [hm, List.map_map]
    rfl
  · exact List.Nodup.of_map _ hnodidx

/-- C3: unmounting the Map Host after any event sequence (any number of
ingested pings) destroys every outstanding Marker Record: no live
marker or popup handle remains, the destruction count grows by exactly
the number of records that were live, and no new records are created,
regardless of the History Store's contents at that moment. -/
theorem C3_unmount_destroys (es : List MapEvent) :
    (runMap (es ++ [MapEvent.unmount])).markers = [] ∧
    (runMap (es ++ [MapEvent.unmount])).destroyed
      = (runMap es).destroyed + (runMap es).markers.length ∧
    (runMap (es ++ [MapEvent.unmount])).created = (runMap es).created := by
  have h : runMap (es ++ [MapEvent.unmount])
      = mapStep (runMap es) MapEvent.unmount := by
    simp [runMap, List.foldl_append]
  rw [h]
  exact ⟨rfl, rfl, rfl⟩

/-- C4: the danger flag holds exactly when the normalized lookup value
for "in_danger" is "yes"; in that case the rows are exactly the ordered
four-row set in_danger, injured, alone, threat_active, each value the
looked-up normalized answer or the literal "unknown" when absent;
otherwise the flag is false and the rows are exactly the ordered
two-row set in_danger, status under the same placeholder policy. -/
theorem C4_normalize_branches (raw : JSVal) :
    ((parseAnswers raw).1 = true ↔
      lookupRec (answerMap raw) kInDanger = some sYes) ∧
    (lookupRec (answerMap raw) kInDanger = some sYes →
      (parseAnswers raw).2 =
        [(kInDanger, sYes),
         (kInjured, (lookupRec (answerMap raw) kInjured).getD sUnknown),
         (kAlone, (lookupRec (answerMap raw) kAlone).getD sUnknown),
         (kThreat, (lookupRec (answerMap raw) kThreat).getD sUnknown)]) ∧
    (lookupRec (answerMap raw) kInDanger ≠ some sYes →
      (parseAnswers raw).1 = false ∧
      (parseAnswers raw).2 =
        [(kInDanger, (lookupRec (answerMap raw) kInDanger).getD sUnknown),
         (kStatus, (lookupRec (answerMap raw) kStatus).getD sUnknown)]) := by
  by_cases h : lookupRec (answerMap raw) kInDanger = some sYes
  · refine ⟨?_, ?_, ?_⟩
    · simp [parseAnswers, h]
    · intro _
      simp [parseAnswers, h]
    · intro hne
      exact absurd h hne
  · refine ⟨?_, ?_, ?_⟩
    · simp [parseAnswers, h]
    · intro hy
      exact absurd hy h
    · intro _
      simp [parseAnswers, h]

theorem C4_normalize_branches_witness :
    (parseAnswers exampleRaw).2 =
      [(kInDanger, sYes),
       (kInjured, (lookupRec (answerMap exampleRaw) kInjured).getD sUnknown),
       (kAlone, (lookupRec (answerMap exampleRaw) kAlone).getD sUnknown),
       (kThreat, (lookupRec (answerMap exampleRaw) kThreat).getD sUnknown)] :=
  (C4_normalize_branches exampleRaw).2.1 (by decide)

/-- C5: normalize is total and deterministic by construction (it is a
Lean function); every non-list input is treated as the empty list and
degrades to the flag-false two-row all-"unknown" view instead of
failing, and the empty list yields the same view. -/
theorem C5_normalize_total :
    (∀ raw : JSVal, (∀ xs, raw ≠ JSVal.arr xs) →
      parseAnswers raw =
        (false, [(kInDanger, sUnknown), (kStatus, sUnknown)])) ∧
    parseAnswers (JSVal.arr []) =
      (false, [(kInDanger, sUnknown), (kStatus, sUnknown)]) := by
  constructor
  · intro raw h
    have hl : asList raw = [] := by
      cases raw <;> first | rfl | exact absurd rfl (h _)
    simp [parseAnswers, answerMap, hl, buildLookup, lookupRec]
  · decide

theorem C5_normalize_total_witness :
    parseAnswers JSVal.null =
      (false, [(kInDanger, sUnknown), (kStatus, sUnknown)]) :=
  C5_normalize_total.1 JSVal.null (fun _ h => JSVal.noConfusion h)

/-- C9: the lookup built by normalize keeps, for every key, the value
of the last occurrence of that key in list order; hence the danger
flag and every emitted row value are determined by the last occurrence
(so when a key occurs more than once, the last one wins). -/
theorem C9_last_wins (xs : List JSVal) :
    ((parseAnswers (JSVal.arr xs)).1 = true ↔
      lastAnswer xs kInDanger = some sYes) ∧
    (∀ k v, (k, v) ∈ (parseAnswers (JSVal.arr xs)).2 →
      v = (lastAnswer xs k).getD sUnknown) := by
  have hmap : answerMap (JSVal.arr xs) = buildLookup xs := rfl
  have hindanger := buildLookup_last xs kInDanger (by decide)
  have hinjured := buildLookup_last xs kInjured (by decide)
  have halone := buildLookup_last xs kAlone (by decide)
  have hthreat := buildLookup_last xs kThreat (by decide)
  have hstatus := buildLookup_last xs kStatus (by decide)
  constructor
  · rw [← hindanger]
    by_cases h : lookupRec (buildLookup xs) kInDanger = some sYes
    · simp [parseAnswers, hmap, h]
    · simp [parseAnswers, hmap, h]
  · intro k v hv
    by_cases h : lookupRec (buildLookup xs) kInDanger = some sYes
    · simp [parseAnswers, hmap, h] at hv
      rcases hv with ⟨rfl, rfl⟩ | ⟨rfl, rfl⟩ | ⟨rfl, rfl⟩ | ⟨rfl, rfl⟩
      · rw [← hindanger, h]
        rfl
      · rw [← hinjured]
      · rw [← halone]
      · rw [← hthreat]
    · simp [parseAnswers, hmap, h] at hv
      rcases hv with ⟨rfl, rfl⟩ | ⟨rfl, rfl⟩
      · rw [← hindanger]
      · rw [← hstatus]

theorem C9_last_wins_witness :
    sYes = (lastAnswer dupAnswers kInDanger).getD sUnknown :=
  (C9_last_wins dupAnswers).2 kInDanger sYes (by decide)

/-- C10: whenever normalize reports the danger flag, the first emitted
row is exactly ("in_danger", "yes"). -/
theorem C10_danger_first_row (raw : JSVal)
    (h : (parseAnswers raw).1 = true) :
    (parseAnswers raw).2.head? = some (kInDanger, sYes) := by
  by_cases hd : lookupRec (answerMap raw) kInDanger = some sYes
  · simp [parseAnswers, hd]
  · exfalso
    simp [parseAnswers, hd] at h

theorem C10_danger_first_row_witness :
    (parseAnswers exampleRaw).2.head? = some (kInDanger, sYes) :=
  C10_danger_first_row exampleRaw (by decide)

/-- C6 counterexample: the decoded value `{"foo": 1}` is neither the
hello control message nor of the declared wire-ping shape, yet
delivering it appends it to the History Store — the length changes
from 0 to 1 instead of staying unchanged as the claim states. -/
theorem C6_counterexample :
    isHello badShape = false ∧ ¬ WellFormedPing badShape ∧
    runMsgs [some badShape] = [badShape] ∧
    (runMsgs [some badShape]).length = 1 := by
  refine ⟨rfl, ?_, rfl, rfl⟩
  rintro ⟨dev, ts, la, lo, mo, pd, ans, hmo, heq⟩
  simp [badShape] at heq

/-- C6 amended: the ingestion performs no wire-shape validation — every
delivered message that decodes successfully as JSON and is not the
hello control message is handed to the History Store's append exactly
as decoded, whatever its shape; below capacity this increases the store
length by 1. -/
theorem C6_no_shape_validation (store : List JSVal) (d : JSVal)
    (h : isHello d = false) :
    onMessage store (some d) = appendPing store d ∧
    (store.length < MAX_PINS →
      (onMessage store (some d)).length = store.length + 1) := by
  constructor
  · simp [onMessage, h]
  · intro hl
    simp only [onMessage, h, Bool.false_eq_true, if_false]
    rw [appendPing_length]
    omega

theorem C6_no_shape_validation_witness :
    onMessage [] (some badShape) = appendPing [] badShape :=
  (C6_no_shape_validation [] badShape rfl).1

/-- C7: a frame whose content fails to decode as JSON leaves the whole
ingestion state exactly unchanged (the exception is swallowed: the
handler is a total function and the connection is not closed by it),
and a subsequent well-formed ping below capacity increases the store
length by exactly 1 — concretely, a non-JSON frame followed by a
well-formed ping yields store length 1. -/
theorem C7_malformed_dropped :
    (∀ store : List JSVal, onMessage store none = store) ∧
    (runMsgs [none, some wirePing]).length = 1 ∧
    (∀ (store : List JSVal) (d : JSVal), WellFormedPing d →
      store.length < MAX_PINS →
      (onMessage store (some d)).length = store.length + 1) := by
  refine ⟨fun store => rfl, by decide,
    fun store d hw hl => wf_append_len store d hw hl⟩

theorem C7_malformed_dropped_witness :
    (onMessage [] (some wirePing)).length = List.length ([] : List JSVal) + 1 :=
  C7_malformed_dropped.2.2 [] wirePing wirePing_wf (by decide)

/-- C8: a decoded message whose `type` field is the string "hello" is
dropped without affecting the History Store, and a subsequent
well-formed ping below capacity increases the store length by exactly
1 — concretely, `{"type":"hello"}` followed by a well-formed ping
yields store length 1 (the hello contributes 0). -/
theorem C8_hello_dropped :
    (∀ (store : List JSVal) (d : JSVal),
      getField d kType = JSVal.str sHello → onMessage store (some d) = store) ∧
    (runMsgs [some helloMsg, some wirePing]).length = 1 ∧
    (∀ (store : List JSVal) (d : JSVal), WellFormedPing d →
      store.length < MAX_PINS →
      (onMessage store (some d)).length = store.length + 1) := by
  refine ⟨?_, by decide, fun store d hw hl => wf_append_len store d hw hl⟩
  intro store d h
  have hh : isHello d = true := by
    simp [isHello, h]
  simp [onMessage, hh]

theorem C8_hello_dropped_witness :
    onMessage [wirePing] (some helloMsg) = [wirePing] :=
  C8_hello_dropped.1 [wirePing] helloMsg rfl
